import Mathlib

/-
Verification of the chirp-mass scan pipeline and the neural-spline-flow
wrapper of this repository.  The Python sources are shallowly embedded:
numpy arrays of reals become lists of rationals, in-place tensor writes
become explicit state passing on functions `Nat → α`, and fallible code
returns `Option`/`Except`.
-/

namespace DingoScan

/-- Embedding of `numpy.linspace(start, stop, num)` (endpoint=True):
`num` evenly spaced rationals from `start` to `stop` inclusive; for
`num = 1` numpy returns `[start]`, for `num = 0` the empty array. -/
def linspace (start stop : ℚ) (num : ℕ) : List ℚ :=
  if num ≤ 1 then List.replicate num start
  else (List.range num).map (fun (i : ℕ) => start + (i : ℚ) * (stop - start) / ((num : ℚ) - 1))

/-- Embedding of `get_scan_chirp_masses` (chirp_mass_scan.py, lines 79-93):
the prior and kernel bounds extracted from the model metadata are passed
explicitly; the candidate grid is
`np.linspace(prior.minimum - kernel.minimum, prior.maximum - kernel.maximum,
math.ceil(prior_range / kernel_range * overlap_factor))`.
`math.ceil` returns an integer; `np.linspace` requires it non-negative
(otherwise the Python call raises), hence the `Int.toNat`. -/
def get_scan_chirp_masses (priorMin priorMax kernelMin kernelMax overlap_factor : ℚ) :
    List ℚ :=
  linspace (priorMin - kernelMin) (priorMax - kernelMax)
    (⌈(priorMax - priorMin) / (kernelMax - kernelMin) * overlap_factor⌉).toNat

/-- Python `int()` applied to a rational: truncation toward zero. -/
def pyInt (q : ℚ) : ℤ := if 0 ≤ q then ⌊q⌋ else ⌈q⌉

/-- Embedding of `get_scan_times` (chirp_mass_scan.py, lines 184-197): with no
requested window it returns the one-element list `[None]`; otherwise
`delta_t = (prior.maximum - prior.minimum) / overlap_factor`,
`N = int((t_max - t_min) / delta_t) + 1`, and the offsets are
`np.linspace(t_min, t_max, N)`.  The geocent-time prior bounds are passed
explicitly. -/
def get_scan_times (time_scan_range : Option (ℚ × ℚ))
    (priorTimeMin priorTimeMax overlap_factor : ℚ) : List (Option ℚ) :=
  match time_scan_range with
  | none => [none]
  | some (t_min, t_max) =>
    let delta_t := (priorTimeMax - priorTimeMin) / overlap_factor
    let N := (pyInt ((t_max - t_min) / delta_t) + 1).toNat
    (linspace t_min t_max N).map some

/-- Embedding of a contiguous numpy slice assignment
`buf[lower:upper] = v` (with `v` broadcast over the slice): the buffer is a
total map from row index to row value. -/
def sliceAssign {α : Type} (buf : ℕ → α) (lower upper : ℕ) (v : α) : ℕ → α :=
  fun i => if lower ≤ i ∧ i < upper then v else buf i

/-- Embedding of the write loop of `generate_data_for_scan`
(chirp_mass_scan.py, lines 102-106): `for idx, chirp_mass in
enumerate(chirp_masses): buf[idx*num_samples:(idx+1)*num_samples] =
transform(data | params_dict(chirp_mass))`.  The fixed `data` argument is
absorbed into `transform`; `α` stands for one output row (in the source,
the pair of a `waveform` row and a `context_parameters` row). -/
def scanLoop {α : Type} (transform : ℚ → α) (num_samples : ℕ)
    (buf : ℕ → α) (l : List (ℕ × ℚ)) : ℕ → α :=
  l.foldl
    (fun b p => sliceAssign b (p.1 * num_samples) ((p.1 + 1) * num_samples) (transform p.2))
    buf

/-- Embedding of `generate_data_for_scan` (chirp_mass_scan.py, lines 96-107):
the function first evaluates `transform` at `chirp_masses[0]` to size the
zero-filled output buffers, which raises an index error on an empty grid
(`none` here); then it runs the enumerate loop.  `data_zero` is the value of
a row of the freshly allocated `torch.zeros` buffer. -/
def generate_data_for_scan {α : Type} (transform : ℚ → α) (data_zero : α)
    (chirp_masses : List ℚ) (num_samples : ℕ) : Option (ℕ → α) :=
  match chirp_masses with
  | [] => none
  | _ :: _ => some (scanLoop transform num_samples (fun _ => data_zero) chirp_masses.enum)

/-- One row of the post-processing sample table `theta`
(chirp_mass_scan.py, `main`): only the columns the trigger report reads are
kept. -/
structure ScanSample where
  chirp_mass : ℚ
  geocent_time : ℚ
  deriving DecidableEq, Inhabited

/-- Embedding of `numpy.argmax` on a one-dimensional array: the index of the
first occurrence of the maximum (numpy scans left to right and only a
strictly greater value moves the running best). -/
def np_argmax : List ℚ → ℕ
  | [] => 0
  | [_] => 0
  | x :: y :: tl =>
    if x < (y :: tl).getD (np_argmax (y :: tl)) 0 then np_argmax (y :: tl) + 1 else 0

/-- The values the script reports for the trigger (chirp_mass_scan.py,
lines 260-266): chirp mass, SNR, and absolute GPS time. -/
structure TriggerReport where
  chirp_mass : ℚ
  snr : ℚ
  gps_time : ℚ
  deriving DecidableEq

/-- Embedding of the trigger extraction (chirp_mass_scan.py, lines 260-266):
`j = np.argmax(log_likelihoods)`; the report is
`(theta["chirp_mass"][j], snrs[j], time_event + theta["geocent_time"][j])`. -/
def select_trigger (theta : List ScanSample) (log_likelihoods snrs : List ℚ)
    (time_event : ℚ) : TriggerReport :=
  let j := np_argmax log_likelihoods
  { chirp_mass := (theta.getD j default).chirp_mass
    snr := snrs.getD j 0
    gps_time := time_event + (theta.getD j default).geocent_time }

/-- Embedding of the prior-support filter (chirp_mass_scan.py, lines
246-250): `indices = np.where(log_prior > -np.inf)[0]; theta =
theta.iloc[indices]; log_prior = log_prior[indices]`.  A log-prior value is
a `WithBot ℚ`, with `⊥` standing for `-np.inf`. -/
def prior_filter (theta : List ScanSample) (log_prior : List (WithBot ℚ)) :
    List ScanSample × List (WithBot ℚ) :=
  let indices := (List.range log_prior.length).filter
    (fun i => decide ((⊥ : WithBot ℚ) < log_prior.getD i ⊥))
  (indices.map (fun i => theta.getD i default), indices.map (fun i => log_prior.getD i ⊥))

/-- The parts of an `EventDataset` the time translation touches: the
per-detector frequency-domain strain arrays (each of type `W`) and the
`time_event` setting. -/
structure EventDatasetV (W : Type) where
  waveform : List W
  time_event : ℚ
  deriving DecidableEq

/-- The dataset value after `time_translate_event_dataset`: every detector
strain is replaced by `domain.time_translate_data(strain, dt)` — abstracted
as `ttd`, the phase rotation for the fixed offset `dt`, whose numerics live
outside this repository slice — and `time_event` is decreased by `dt`. -/
def translatedDataset {W : Type} (ttd : W → W) (ed : EventDatasetV W) (dt : ℚ) :
    EventDatasetV W :=
  { waveform := ed.waveform.map ttd, time_event := ed.time_event - dt }

/-- Embedding of `time_translate_event_dataset` (chirp_mass_scan.py, lines
174-181).  The Python function returns nothing and assigns into
`event_dataset.data` and `event_dataset.settings`; Python reference
semantics is modelled by a store from references to dataset values which
the call updates at the argument reference `r`. -/
def time_translate_event_dataset {W : Type} (ttd : W → W)
    (store : ℕ → EventDatasetV W) (r : ℕ) (dt : ℚ) : ℕ → EventDatasetV W :=
  fun j => if j = r then translatedDataset ttd (store r) dt else store j

/-- Embedding of `torch.squeeze` at the shape level: every dimension of
size 1 is removed, wherever it occurs. -/
def torch_squeeze (shape : List ℕ) : List ℕ := shape.filter (fun d => decide (d ≠ 1))

/-- Shape of `nflows` `Flow.sample(num_samples, context)` for a context
batch of `context_rows` rows: one block of `num_samples` draws of dimension
`param_dim` per context row, co-indexed with the rows. -/
def flow_sample_shape (context_rows num_samples param_dim : ℕ) : List ℕ :=
  [context_rows, num_samples, param_dim]

/-- Embedding of `FlowWrapper.sample` (nsf.py, lines 217-221) at the shape
level: the context is embedded (a shape-preserving step for the sample
count), the flow draws `num_samples` per context row, and the result is
`torch.squeeze`-d. -/
def flow_wrapper_sample_shape (context_rows num_samples param_dim : ℕ) : List ℕ :=
  torch_squeeze (flow_sample_shape context_rows num_samples param_dim)

/-- The two transform variants `create_base_transform` can build, reduced to
their construction-time discrete data (the coupling mask). -/
inductive BaseTransform where
  | coupling (mask : List ℕ)
  | autoregressive
  deriving DecidableEq

/-- Embedding of `nflows.utils.create_alternating_binary_mask(features,
even)`: entry `i` is 1 when `i` is even iff `even` holds. -/
def create_alternating_binary_mask (features : ℕ) (even : Bool) : List ℕ :=
  (List.range features).map (fun i => if decide (i % 2 = 0) = even then 1 else 0)

/-- Embedding of `create_base_transform` (nsf.py, lines 97-141): dispatch on
the string `base_transform_type`; `rq-coupling` builds the coupling
transform with the alternating mask (`[1]` when `param_dim == 1`),
`rq-autoregressive` builds the autoregressive transform, and any other tag
raises `ValueError`. -/
def create_base_transform (i : ℕ) (param_dim : ℕ) (base_transform_type : String) :
    Except String BaseTransform :=
  if base_transform_type = "rq-coupling" then
    Except.ok (BaseTransform.coupling
      (if param_dim = 1 then [1] else create_alternating_binary_mask param_dim (decide (i % 2 = 0))))
  else if base_transform_type = "rq-autoregressive" then
    Except.ok BaseTransform.autoregressive
  else
    Except.error "ValueError"

/-! ## Helper lemmas -/

/-- Last element of a list with default, computed positionally. -/
theorem getLastD_eq_getD {α : Type} :
    ∀ (l : List α) (d : α), l.getLastD d = l.getD (l.length - 1) d
  | [], _ => rfl
  | [_], _ => rfl
  | a :: b :: t, d => by
    have ih := getLastD_eq_getD (b :: t) d
    simpa [List.getLastD] using ih

/-- Length of the linspace embedding. -/
theorem linspace_length (a b : ℚ) (n : ℕ) : (linspace a b n).length = n := by
  unfold linspace
  split <;> simp

/-- Entry `i` of the linspace embedding, in the generic case `2 ≤ n`. -/
theorem linspace_getD (a b : ℚ) (n : ℕ) (hn : 2 ≤ n) (i : ℕ) (hi : i < n) :
    (linspace a b n).getD i 0 = a + i * (b - a) / ((n : ℚ) - 1) := by
  unfold linspace
  rw [if_neg (by omega)]
  rw [List.getD_eq_getElem?_getD, List.getElem?_map, List.getElem?_range hi]
  rfl

/-- First entry of the linspace embedding. -/
theorem linspace_headD (a b : ℚ) (n : ℕ) (hn : 1 ≤ n) (d : ℚ) :
    (linspace a b n).headD d = a := by
  unfold linspace
  split
  · have hn1 : n = 1 := by omega
    subst hn1
    rfl
  · have h : n - 1 + 1 = n := by omega
    rw [← h, List.range_succ_eq_map]
    simp

/-- Last entry of the linspace embedding, in the generic case `2 ≤ n`. -/
theorem linspace_getLastD (a b : ℚ) (n : ℕ) (hn : 2 ≤ n) :
    (linspace a b n).getLastD 0 = b := by
  rw [getLastD_eq_getD, linspace_length, linspace_getD a b n hn (n - 1) (by omega)]
  have h1 : ((n - 1 : ℕ) : ℚ) = (n : ℚ) - 1 := by
    push_cast [Nat.cast_sub (by omega : 1 ≤ n)]
    ring
  have h2 : (n : ℚ) - 1 ≠ 0 := by
    have : (2 : ℚ) ≤ (n : ℚ) := by exact_mod_cast hn
    linarith
  rw [h1, mul_comm ((n : ℚ) - 1) (b - a), mul_div_assoc, div_self h2, mul_one]
  ring

/-- Consecutive entries of the linspace embedding differ by the constant
step `(b - a) / (n - 1)`. -/
theorem linspace_chain' (a b : ℚ) (n : ℕ) (hn : 2 ≤ n) :
    List.Chain' (fun x y => y - x = (b - a) / ((n : ℚ) - 1)) (linspace a b n) := by
  unfold linspace
  rw [if_neg (by omega)]
  rw [List.chain'_map]
  obtain ⟨m, rfl⟩ : ∃ m, n = m + 1 := ⟨n - 1, by omega⟩
  rw [List.chain'_range_succ]
  intro i hi
  push_cast
  ring

/-- A linspace with nonnegative step is nondecreasing. -/
theorem linspace_mono (a b : ℚ) (n : ℕ) (hn : 2 ≤ n) (hab : a ≤ b) :
    List.Chain' (· ≤ ·) (linspace a b n) := by
  have hstep : 0 ≤ (b - a) / ((n : ℚ) - 1) := by
    apply div_nonneg (by linarith)
    have : (2 : ℚ) ≤ (n : ℚ) := by exact_mod_cast hn
    linarith
  exact (linspace_chain' a b n hn).imp (fun x y hxy => by linarith)

/-! ## Claim theorems -/

/-- C2, counterexample.  For prior bounds `[0, 10]`, kernel bounds
`[-1/2, 1/2]` and overlap factor `2`, the claim asserts a grid of count 19
with spacing exactly `1/2`; the code builds
`np.linspace(1/2, 19/2, ceil(10 / 1 * 2)) = np.linspace(1/2, 19/2, 20)`,
whose count is 20 and whose spacing is `9/19`. -/
theorem C2_grid_coverage_counterexample :
    ¬ ((get_scan_chirp_masses 0 10 (-(1/2)) (1/2) 2).length = 19 ∧
       List.Chain' (fun x y => y - x = 1/2) (get_scan_chirp_masses 0 10 (-(1/2)) (1/2) 2)) := by
  have hgrid : get_scan_chirp_masses 0 10 (-(1/2)) (1/2) 2 = linspace (1/2) (19/2) 20 := by
    unfold get_scan_chirp_masses
    norm_num
    rfl
  rintro ⟨hlen, -⟩
  rw [hgrid, linspace_length] at hlen
  omega

/-- C2, amended.  For chirp-mass prior bounds `[0, 10]`,
conditioning-kernel bounds `[-1/2, 1/2]` and overlap factor `2`, the
candidate grid has count 20, first value `1/2`, last value `19/2`, and
spacing exactly `9/19`. -/
theorem C2_grid_coverage :
    (get_scan_chirp_masses 0 10 (-(1/2)) (1/2) 2).length = 20 ∧
    (get_scan_chirp_masses 0 10 (-(1/2)) (1/2) 2).headD 0 = 1/2 ∧
    (get_scan_chirp_masses 0 10 (-(1/2)) (1/2) 2).getLastD 0 = 19/2 ∧
    List.Chain' (fun x y => y - x = 9/19) (get_scan_chirp_masses 0 10 (-(1/2)) (1/2) 2) := by
  have hgrid : get_scan_chirp_masses 0 10 (-(1/2)) (1/2) 2 = linspace (1/2) (19/2) 20 := by
    unfold get_scan_chirp_masses
    norm_num
    rfl
  have hstep : (19/2 - 1/2 : ℚ) / ((20 : ℚ) - 1) = 9/19 := by norm_num
  refine ⟨?_, ?_, ?_, ?_⟩
  · rw [hgrid, linspace_length]
  · rw [hgrid, linspace_headD _ _ _ (by omega)]
  · rw [hgrid, linspace_getLastD _ _ _ (by omega)]
  · rw [hgrid]
    have h := linspace_chain' (1/2) (19/2) 20 (by omega)
    rw [show ((20 : ℕ) : ℚ) = (20 : ℚ) by norm_num, hstep] at h
    exact h

/-- C3, counterexample.  For prior bounds `[0, 1]`, kernel bounds `[-2, 2]`
and overlap factor `1` the grid count `ceil(1/4) = 1`, so the grid is the
single point `prior_min - kernel_min = 2`: its last value is not
`prior_max - kernel_max = -1` as the claim asserts for every such prior,
kernel and positive overlap factor. -/
theorem C3_candidate_grid_counterexample :
    get_scan_chirp_masses 0 1 (-2) 2 1 = [2] ∧
    (get_scan_chirp_masses 0 1 (-2) 2 1).getLastD 0 ≠ 1 - 2 := by
  have hgrid : get_scan_chirp_masses 0 1 (-2) 2 1 = linspace 2 (-1) 1 := by
    unfold get_scan_chirp_masses
    have hceil : ⌈(1 - 0) / (2 - (-2 : ℚ)) * 1⌉ = 1 := by
      rw [Int.ceil_eq_iff]
      norm_num
    rw [hceil]
    norm_num
  have hval : linspace 2 (-1) 1 = [2] := rfl
  rw [hgrid, hval]
  refine ⟨rfl, ?_⟩
  norm_num [List.getLastD]

/-- C3, amended.  For every chirp-mass prior `[pm, PM]`, kernel `[km, KM]`
and positive overlap factor, the candidate grid length equals
`ceil((PM - pm) / (KM - km) * ov)`; provided that count is at least 2, the
grid starts at `pm - km`, ends at `PM - KM` and is evenly spaced with step
`((PM - KM) - (pm - km)) / (count - 1)`, and it is ordered (nondecreasing)
provided additionally the kernel width does not exceed the prior width. -/
theorem C3_candidate_grid (pm PM km KM ov : ℚ)
    (h1 : pm < PM) (h2 : km < KM) (h3 : 0 < ov) :
    ((get_scan_chirp_masses pm PM km KM ov).length : ℤ)
        = ⌈(PM - pm) / (KM - km) * ov⌉ ∧
    (2 ≤ ⌈(PM - pm) / (KM - km) * ov⌉ →
      (get_scan_chirp_masses pm PM km KM ov).headD 0 = pm - km ∧
      (get_scan_chirp_masses pm PM km KM ov).getLastD 0 = PM - KM ∧
      List.Chain'
        (fun x y => y - x =
          ((PM - KM) - (pm - km)) / ((⌈(PM - pm) / (KM - km) * ov⌉ : ℚ) - 1))
        (get_scan_chirp_masses pm PM km KM ov) ∧
      (KM - km ≤ PM - pm →
        List.Chain' (· ≤ ·) (get_scan_chirp_masses pm PM km KM ov))) := by
  have hpos : 0 < (PM - pm) / (KM - km) * ov :=
    mul_pos (div_pos (by linarith) (by linarith)) h3
  have hn0 : 0 < ⌈(PM - pm) / (KM - km) * ov⌉ := Int.ceil_pos.mpr hpos
  have hlen : (get_scan_chirp_masses pm PM km KM ov).length
      = (⌈(PM - pm) / (KM - km) * ov⌉).toNat := by
    unfold get_scan_chirp_masses
    exact linspace_length _ _ _
  refine ⟨by rw [hlen]; exact_mod_cast Int.toNat_of_nonneg hn0.le, fun h2n => ?_⟩
  have h2n' : 2 ≤ (⌈(PM - pm) / (KM - km) * ov⌉).toNat := by omega
  have hcast : (((⌈(PM - pm) / (KM - km) * ov⌉).toNat : ℚ))
      = ((⌈(PM - pm) / (KM - km) * ov⌉ : ℚ)) := by
    exact_mod_cast Int.toNat_of_nonneg hn0.le
  refine ⟨?_, ?_, ?_, ?_⟩
  · exact linspace_headD _ _ _ (by omega) 0
  · exact linspace_getLastD _ _ _ h2n'
  · have h := linspace_chain' (pm - km) (PM - KM) (⌈(PM - pm) / (KM - km) * ov⌉).toNat h2n'
    rw [hcast] at h
    exact h
  · intro hw
    exact linspace_mono _ _ _ h2n' (by linarith)

/-- Witness for C3 at the production configuration of C2. -/
theorem C3_candidate_grid_witness :
    (0 : ℚ) < 10 ∧ (-(1/2) : ℚ) < 1/2 ∧ (0 : ℚ) < 2 ∧
    ((get_scan_chirp_masses 0 10 (-(1/2)) (1/2) 2).length : ℤ)
      = ⌈((10 : ℚ) - 0) / ((1/2 : ℚ) - -(1/2)) * 2⌉ :=
  ⟨by norm_num, by norm_num, by norm_num,
    (C3_candidate_grid 0 10 (-(1/2)) (1/2) 2 (by norm_num) (by norm_num) (by norm_num)).1⟩

/-- The folded writes of `scanLoop` over `enumFrom k` only touch indices at
`k * num_samples` or beyond. -/
theorem scanLoop_below {α : Type} (t : ℚ → α) (ns : ℕ) (l : List ℚ) :
    ∀ (k : ℕ) (buf : ℕ → α) (i : ℕ), i < k * ns →
      scanLoop t ns buf (l.enumFrom k) i = buf i := by
  induction l with
  | nil => intro k buf i hi; rfl
  | cons m tl ih =>
    intro k buf i hi
    show scanLoop t ns (sliceAssign buf (k * ns) ((k + 1) * ns) (t m)) (tl.enumFrom (k + 1)) i
        = buf i
    have hk : k * ns ≤ (k + 1) * ns := Nat.mul_le_mul_right ns (by omega)
    rw [ih (k + 1) _ i (lt_of_lt_of_le hi hk)]
    simp only [sliceAssign]
    rw [if_neg (fun h => absurd h.1 (Nat.not_le.mpr hi))]

/-- Row `i` after the scan loop is the transform output of the grid point
with index `i / num_samples - k` (writing over `enumFrom k`). -/
theorem scanLoop_get {α : Type} (t : ℚ → α) (ns : ℕ) (hns : 0 < ns) (l : List ℚ) :
    ∀ (k : ℕ) (buf : ℕ → α) (j : ℕ), j < l.length →
      ∀ i : ℕ, i / ns = k + j →
        scanLoop t ns buf (l.enumFrom k) i = t (l.getD j 0) := by
  induction l with
  | nil => intro k buf j hj; simp at hj
  | cons m tl ih =>
    intro k buf j hj i hdiv
    cases j with
    | zero =>
      have hk : k ≤ i / ns := by omega
      have hlow : k * ns ≤ i := (Nat.le_div_iff_mul_le hns).mp hk
      have hk' : i / ns < k + 1 := by omega
      have hhigh : i < (k + 1) * ns := (Nat.div_lt_iff_lt_mul hns).mp hk'
      show scanLoop t ns (sliceAssign buf (k * ns) ((k + 1) * ns) (t m)) (tl.enumFrom (k + 1)) i
          = t ((m :: tl).getD 0 0)
      rw [scanLoop_below t ns tl (k + 1) _ i hhigh]
      simp only [sliceAssign]
      rw [if_pos ⟨hlow, hhigh⟩]
      rfl
    | succ j' =>
      show scanLoop t ns (sliceAssign buf (k * ns) ((k + 1) * ns) (t m)) (tl.enumFrom (k + 1)) i
          = t ((m :: tl).getD (j' + 1) 0)
      rw [ih (k + 1) _ j' (by simpa using hj) i (by omega)]
      rfl

/-- C1.  The scan data builder writes each grid point's block of
`num_samples` rows into its contiguous slice of the pre-allocated output in
grid order: for `0 < num_samples` and any row index
`i < grid_count * num_samples`, output row `i` is the transform output of
the grid value at index `i / num_samples`. -/
theorem C1_scan_batching {α : Type} (transform : ℚ → α) (data_zero : α)
    (chirp_masses : List ℚ) (num_samples : ℕ) (hns : 0 < num_samples)
    (i : ℕ) (hi : i < chirp_masses.length * num_samples) :
    ∃ rows, generate_data_for_scan transform data_zero chirp_masses num_samples = some rows ∧
      rows i = transform (chirp_masses.getD (i / num_samples) 0) := by
  cases chirp_masses with
  | nil => simp at hi
  | cons m tl =>
    refine ⟨_, rfl, ?_⟩
    have hj : i / num_samples < (m :: tl).length := (Nat.div_lt_iff_lt_mul hns).mpr hi
    exact scanLoop_get transform num_samples hns (m :: tl) 0 _ (i / num_samples) hj i
      (by omega)

/-- Witness for C1: grid `[10, 20, 30]`, 4 samples per point, row 7 carries
grid index `7 / 4 = 1`, hence grid value 20. -/
theorem C1_scan_batching_witness :
    0 < 4 ∧ 7 < [(10 : ℚ), 20, 30].length * 4 ∧
    ∃ rows, generate_data_for_scan (fun x : ℚ => x) (0 : ℚ) [10, 20, 30] 4 = some rows ∧
      rows 7 = (fun x : ℚ => x) ([(10 : ℚ), 20, 30].getD (7 / 4) 0) :=
  ⟨by decide, by decide, C1_scan_batching _ _ _ _ (by decide) 7 (by decide)⟩

/-- C10.  The scan data builder reads `chirp_masses[0]` before the loop to
size its output buffers, so it fails on an empty grid (returns `none`, the
embedding of the raised index error) and is total on every non-empty
grid. -/
theorem C10_empty_grid {α : Type} (transform : ℚ → α) (data_zero : α)
    (chirp_masses : List ℚ) (num_samples : ℕ) :
    (generate_data_for_scan transform data_zero chirp_masses num_samples = none
        ↔ chirp_masses = []) ∧
    (chirp_masses ≠ [] →
      ∃ rows,
        generate_data_for_scan transform data_zero chirp_masses num_samples = some rows) := by
  cases chirp_masses <;> simp [generate_data_for_scan]

/-- Witness for C10 on the one-point grid `[1]`. -/
theorem C10_empty_grid_witness :
    ([(1 : ℚ)] ≠ []) ∧
    (∃ rows, generate_data_for_scan (fun x : ℚ => x) (0 : ℚ) [1] 1 = some rows) :=
  ⟨by decide, (C10_empty_grid (fun x : ℚ => x) 0 [1] 1).2 (by decide)⟩

/-- The argmax embedding returns an in-bounds index on non-empty input. -/
theorem np_argmax_lt (l : List ℚ) (h : l ≠ []) : np_argmax l < l.length := by
  induction l with
  | nil => exact absurd rfl h
  | cons x tl ih =>
    cases tl with
    | nil => simp [np_argmax]
    | cons y tl' =>
      simp only [np_argmax]
      split
      · have := ih (by simp)
        simp only [List.length_cons] at this ⊢
        omega
      · simp

/-- The argmax embedding points at a maximal entry. -/
theorem np_argmax_max (l : List ℚ) :
    ∀ i < l.length, l.getD i 0 ≤ l.getD (np_argmax l) 0 := by
  induction l with
  | nil => intro i hi; simp at hi
  | cons x tl ih =>
    cases tl with
    | nil =>
      intro i hi
      simp only [List.length_cons, List.length_nil] at hi
      have hi0 : i = 0 := by omega
      subst hi0
      simp [np_argmax]
    | cons y tl' =>
      intro i hi
      simp only [np_argmax]
      split
      · rename_i hlt
        cases i with
        | zero => simpa using le_of_lt hlt
        | succ i' =>
          have h1 := ih i' (by simpa using hi)
          simpa using h1
      · rename_i hge
        push_neg at hge
        cases i with
        | zero => simp
        | succ i' =>
          have h1 := ih i' (by simpa using hi)
          simp only [List.getD_cons_succ, List.getD_cons_zero]
          exact le_trans h1 hge

/-- C4.  After scoring, the trigger is the row at the (first) maximal
log-likelihood: that index is in bounds, its log-likelihood dominates every
row, and the report takes the chirp mass and geocent time from that row of
`theta`, the SNR from the co-indexed `snrs` entry, and the absolute event
time is `time_event + geocent_time`; in particular on
`log_likelihood = [1, 5, 3, 9, 2]` the selected row index is 3. -/
theorem C4_trigger_selection (theta : List ScanSample) (log_likelihoods snrs : List ℚ)
    (time_event : ℚ) (h : log_likelihoods ≠ []) :
    np_argmax log_likelihoods < log_likelihoods.length ∧
    (∀ i < log_likelihoods.length,
      log_likelihoods.getD i 0 ≤ log_likelihoods.getD (np_argmax log_likelihoods) 0) ∧
    select_trigger theta log_likelihoods snrs time_event =
      { chirp_mass := (theta.getD (np_argmax log_likelihoods) default).chirp_mass
        snr := snrs.getD (np_argmax log_likelihoods) 0
        gps_time :=
          time_event + (theta.getD (np_argmax log_likelihoods) default).geocent_time } ∧
    np_argmax [1, 5, 3, 9, 2] = 3 :=
  ⟨np_argmax_lt _ h, np_argmax_max _, rfl, by decide⟩

/-- Witness for C4 on the spec's example: log-likelihoods `[1, 5, 3, 9, 2]`,
trigger row 3, whose chirp mass is 29, SNR 12, geocent time 4 against an
event time of 100. -/
theorem C4_trigger_selection_witness :
    ([(1 : ℚ), 5, 3, 9, 2] ≠ []) ∧
    np_argmax [1, 5, 3, 9, 2] = 3 ∧
    select_trigger
        [⟨26, 1⟩, ⟨27, 2⟩, ⟨28, 3⟩, ⟨29, 4⟩, ⟨30, 5⟩] [1, 5, 3, 9, 2] [10, 11, 14, 12, 13] 100 =
      { chirp_mass :=
          (([⟨26, 1⟩, ⟨27, 2⟩, ⟨28, 3⟩, ⟨29, 4⟩, ⟨30, 5⟩] : List ScanSample).getD
            (np_argmax [1, 5, 3, 9, 2]) default).chirp_mass
        snr := [(10 : ℚ), 11, 14, 12, 13].getD (np_argmax [1, 5, 3, 9, 2]) 0
        gps_time := 100 +
          (([⟨26, 1⟩, ⟨27, 2⟩, ⟨28, 3⟩, ⟨29, 4⟩, ⟨30, 5⟩] : List ScanSample).getD
            (np_argmax [1, 5, 3, 9, 2]) default).geocent_time } := by
  refine ⟨by decide, by decide, ?_⟩
  exact (C4_trigger_selection [⟨26, 1⟩, ⟨27, 2⟩, ⟨28, 3⟩, ⟨29, 4⟩, ⟨30, 5⟩]
    [1, 5, 3, 9, 2] [10, 11, 14, 12, 13] 100 (by decide)).2.2.1

/-- Selecting the rows of two co-indexed lists at the index positions where
a predicate holds of the second list equals filtering their zip by that
predicate. -/
theorem range_filter_map_zip {α β : Type} (da : α) (db : β) (p : β → Bool) :
    ∀ (b : List β) (a : List α), a.length = b.length →
      ((List.range b.length).filter (fun i => p (b.getD i db))).map
          (fun i => (a.getD i da, b.getD i db))
        = (a.zip b).filter (fun q => p q.2) := by
  intro b
  induction b with
  | nil => intro a ha; simp
  | cons y ys ih =>
    intro a ha
    cases a with
    | nil => simp at ha
    | cons x xs =>
      have ha' : xs.length = ys.length := by simpa using ha
      have hrec := ih xs ha'
      rw [List.length_cons, List.range_succ_eq_map, List.filter_cons]
      simp only [List.getD_cons_zero, List.filter_map, List.zip_cons_cons, List.filter_cons]
      by_cases hp : p y
      · simp only [hp, if_true, List.map_cons, List.getD_cons_zero]
        rw [List.map_map]
        simp only [Function.comp_def, Nat.succ_eq_add_one, List.getD_cons_succ]
        exact congrArg _ hrec
      · simp only [hp, Bool.false_eq_true, if_false]
        rw [List.map_map]
        simp only [Function.comp_def, Nat.succ_eq_add_one, List.getD_cons_succ]
        exact hrec

/-- C5.  The prior filter keeps exactly the rows whose log-prior is strictly
above `-inf` (with their co-indexed log-prior values, order preserved), and
no `-inf` log-prior survives into the post-filter table. -/
theorem C5_prior_filter (theta : List ScanSample) (log_prior : List (WithBot ℚ))
    (hlen : theta.length = log_prior.length) :
    ((prior_filter theta log_prior).1.zip (prior_filter theta log_prior).2
        = (theta.zip log_prior).filter (fun q => decide ((⊥ : WithBot ℚ) < q.2))) ∧
    ∀ q ∈ (prior_filter theta log_prior).2, ⊥ < q := by
  constructor
  · show (List.map (fun i => theta.getD i default)
          (List.filter (fun i => decide ((⊥ : WithBot ℚ) < log_prior.getD i ⊥))
            (List.range log_prior.length))).zip
        (List.map (fun i => log_prior.getD i ⊥)
          (List.filter (fun i => decide ((⊥ : WithBot ℚ) < log_prior.getD i ⊥))
            (List.range log_prior.length)))
        = (theta.zip log_prior).filter (fun q => decide ((⊥ : WithBot ℚ) < q.2))
    rw [List.zip_map']
    exact range_filter_map_zip default ⊥ (fun v => decide ((⊥ : WithBot ℚ) < v))
      log_prior theta hlen
  · intro q hq
    simp only [prior_filter, List.mem_map, List.mem_filter, List.mem_range] at hq
    obtain ⟨i, ⟨-, hp⟩, rfl⟩ := hq
    exact of_decide_eq_true hp

/-- Witness for C5: the `⊥` (that is, `-inf`) log-prior row is dropped, the
finite one survives with its sample. -/
theorem C5_prior_filter_witness :
    (([⟨1, 2⟩, ⟨3, 4⟩] : List ScanSample).length
        = [⊥, ((5 : ℚ) : WithBot ℚ)].length) ∧
    ((prior_filter [⟨1, 2⟩, ⟨3, 4⟩] [⊥, ((5 : ℚ) : WithBot ℚ)]).1.zip
          (prior_filter [⟨1, 2⟩, ⟨3, 4⟩] [⊥, ((5 : ℚ) : WithBot ℚ)]).2
        = (([⟨1, 2⟩, ⟨3, 4⟩] : List ScanSample).zip [⊥, ((5 : ℚ) : WithBot ℚ)]).filter
            (fun q => decide ((⊥ : WithBot ℚ) < q.2))) ∧
    ∀ q ∈ (prior_filter [⟨1, 2⟩, ⟨3, 4⟩] [⊥, ((5 : ℚ) : WithBot ℚ)]).2, ⊥ < q := by
  refine ⟨rfl, ?_, ?_⟩
  · exact (C5_prior_filter [⟨1, 2⟩, ⟨3, 4⟩] [⊥, ((5 : ℚ) : WithBot ℚ)] rfl).1
  · exact (C5_prior_filter [⟨1, 2⟩, ⟨3, 4⟩] [⊥, ((5 : ℚ) : WithBot ℚ)] rfl).2

/-- C6, counterexample.  `time_translate_event_dataset` assigns into
`event_dataset.data["waveform"]` and `event_dataset.settings["time_event"]`
of its argument: after the call with `dt = 1` on a dataset with recorded
event time 100, the dataset stored at the argument reference has event time
99 — the original EventDataset value is not left unmodified as the claim
asserts. -/
theorem C6_time_translate_counterexample :
    time_translate_event_dataset (fun w : ℚ => w) (fun _ => ⟨[0], 100⟩) 0 1 0
      ≠ (⟨[0], 100⟩ : EventDatasetV ℚ) := by
  intro h
  have h' := congrArg EventDatasetV.time_event h
  simp only [time_translate_event_dataset, translatedDataset, if_pos rfl] at h'
  norm_num at h'

/-- C6, amended.  The time translation updates the event dataset in place:
at the argument reference, every detector waveform is replaced by the
time-translation phase rotation for `dt` and the recorded event time is
reduced by `dt`; every other reference is untouched (`main` avoids aliasing
by loading a fresh dataset each scan iteration). -/
theorem C6_time_translate {W : Type} (ttd : W → W) (store : ℕ → EventDatasetV W)
    (r : ℕ) (dt : ℚ) :
    (time_translate_event_dataset ttd store r dt r).waveform
        = (store r).waveform.map ttd ∧
    (time_translate_event_dataset ttd store r dt r).time_event
        = (store r).time_event - dt ∧
    ∀ j, j ≠ r → time_translate_event_dataset ttd store r dt j = store j := by
  refine ⟨?_, ?_, ?_⟩
  · simp [time_translate_event_dataset, translatedDataset]
  · simp [time_translate_event_dataset, translatedDataset]
  · intro j hj
    simp [time_translate_event_dataset, hj]

/-- Witness for C6: reference 1 is untouched by a translation at
reference 0. -/
theorem C6_time_translate_witness :
    (1 : ℕ) ≠ 0 ∧
    time_translate_event_dataset (fun w : ℚ => w) (fun _ => ⟨[3], 100⟩) 0 1 1
      = (⟨[3], 100⟩ : EventDatasetV ℚ) :=
  ⟨by decide,
    (C6_time_translate (fun w : ℚ => w) (fun _ => ⟨[3], 100⟩) 0 1).2.2 1 (by decide)⟩

/-- Head of a list mapped into options. -/
theorem headD_map_some (l : List ℚ) (d : ℚ) (h : l ≠ []) :
    (l.map some).headD none = some (l.headD d) := by
  cases l with
  | nil => exact absurd rfl h
  | cons a t => rfl

/-- Last element of a list mapped into options. -/
theorem getLastD_map_some (l : List ℚ) (h : l ≠ []) :
    (l.map some).getLastD none = some (l.getLastD 0) := by
  induction l with
  | nil => exact absurd rfl h
  | cons a t ih =>
    cases t with
    | nil => rfl
    | cons b t' => simpa [List.getLastD] using ih (by simp)

/-- A one-point linspace is the start value alone. -/
theorem linspace_one (a b : ℚ) : linspace a b 1 = [a] := rfl

/-- C7, counterexample.  For `t_min = 0`, `t_max = 1/10`, prior time window
`1/5` and overlap factor 1, the count is `floor((1/10) / (1/5)) + 1 = 1`
and the code returns the single offset `[0]`: the grid is not "from t_min
to t_max inclusive", since `t_max = 1/10` is absent. -/
theorem C7_time_scan_counterexample :
    get_scan_times (some (0, 1/10)) 0 (1/5) 1 = [some 0] ∧
    some ((1 : ℚ)/10) ∉ get_scan_times (some (0, 1/10)) 0 (1/5) 1 := by
  have h : get_scan_times (some (0, 1/10)) 0 (1/5) 1 = [some 0] := by
    simp only [get_scan_times, pyInt]
    norm_num
    rfl
  refine ⟨h, ?_⟩
  rw [h]
  intro hmem
  simp only [List.mem_singleton, Option.some.injEq] at hmem
  norm_num at hmem

/-- C7, amended.  With no requested window the controller yields exactly the
single null offset.  With a window `[t_min, t_max]` (and `t_min ≤ t_max`, a
nonempty prior time window, positive overlap factor) it yields
`np.linspace(t_min, t_max, N)` with
`N = floor((t_max - t_min) / (prior_time_window / overlap_factor)) + 1`:
the count is `N`, the first offset is `t_min`, and when `N ≥ 2` the grid is
evenly spaced and ends at `t_max`; when `N = 1` the single offset is
`t_min` (so `t_max` is not reached). -/
theorem C7_time_scan (pmin pmax ov tmin tmax : ℚ)
    (h1 : tmin ≤ tmax) (h2 : pmin < pmax) (h3 : 0 < ov) :
    get_scan_times none pmin pmax ov = [none] ∧
    get_scan_times (some (tmin, tmax)) pmin pmax ov
        = (linspace tmin tmax
            (⌊(tmax - tmin) / ((pmax - pmin) / ov)⌋ + 1).toNat).map some ∧
    ((get_scan_times (some (tmin, tmax)) pmin pmax ov).length : ℤ)
        = ⌊(tmax - tmin) / ((pmax - pmin) / ov)⌋ + 1 ∧
    (get_scan_times (some (tmin, tmax)) pmin pmax ov).headD none = some tmin ∧
    (2 ≤ ⌊(tmax - tmin) / ((pmax - pmin) / ov)⌋ + 1 →
      (get_scan_times (some (tmin, tmax)) pmin pmax ov).getLastD none = some tmax ∧
      List.Chain'
        (fun x y => y - x = (tmax - tmin)
          / (((⌊(tmax - tmin) / ((pmax - pmin) / ov)⌋ + 1 : ℤ) : ℚ) - 1))
        (linspace tmin tmax (⌊(tmax - tmin) / ((pmax - pmin) / ov)⌋ + 1).toNat)) ∧
    (⌊(tmax - tmin) / ((pmax - pmin) / ov)⌋ + 1 = 1 →
      get_scan_times (some (tmin, tmax)) pmin pmax ov = [some tmin]) := by
  have hdelta : 0 < (pmax - pmin) / ov := div_pos (by linarith) h3
  have hq : 0 ≤ (tmax - tmin) / ((pmax - pmin) / ov) :=
    div_nonneg (by linarith) hdelta.le
  have hfl : 0 ≤ ⌊(tmax - tmin) / ((pmax - pmin) / ov)⌋ := Int.floor_nonneg.mpr hq
  have heq : get_scan_times (some (tmin, tmax)) pmin pmax ov
      = (linspace tmin tmax
          (⌊(tmax - tmin) / ((pmax - pmin) / ov)⌋ + 1).toNat).map some := by
    simp only [get_scan_times, pyInt, if_pos hq]
  have hlen1 : 1 ≤ (⌊(tmax - tmin) / ((pmax - pmin) / ov)⌋ + 1).toNat := by omega
  refine ⟨rfl, heq, ?_, ?_, ?_, ?_⟩
  · rw [heq, List.length_map, linspace_length]
    omega
  · rw [heq]
    have hne : linspace tmin tmax
        (⌊(tmax - tmin) / ((pmax - pmin) / ov)⌋ + 1).toNat ≠ [] := by
      intro hnil
      have := linspace_length tmin tmax
        (⌊(tmax - tmin) / ((pmax - pmin) / ov)⌋ + 1).toNat
      rw [hnil] at this
      simp at this
      omega
    rw [headD_map_some _ tmin hne, linspace_headD _ _ _ hlen1]
  · intro h2N
    have h2N' : 2 ≤ (⌊(tmax - tmin) / ((pmax - pmin) / ov)⌋ + 1).toNat := by omega
    have hne : linspace tmin tmax
        (⌊(tmax - tmin) / ((pmax - pmin) / ov)⌋ + 1).toNat ≠ [] := by
      intro hnil
      have := linspace_length tmin tmax
        (⌊(tmax - tmin) / ((pmax - pmin) / ov)⌋ + 1).toNat
      rw [hnil] at this
      simp at this
      omega
    constructor
    · rw [heq, getLastD_map_some _ hne, linspace_getLastD _ _ _ h2N']
    · have h := linspace_chain' tmin tmax
        (⌊(tmax - tmin) / ((pmax - pmin) / ov)⌋ + 1).toNat h2N'
      have hcast : (((⌊(tmax - tmin) / ((pmax - pmin) / ov)⌋ + 1).toNat : ℚ))
          = (((⌊(tmax - tmin) / ((pmax - pmin) / ov)⌋ + 1 : ℤ) : ℚ)) := by
        exact_mod_cast Int.toNat_of_nonneg (by omega)
      rw [hcast] at h
      exact h
  · intro hN1
    rw [heq, hN1]
    rfl

/-- Witness for C7 at the spec's instance: `t_min = -1/10`,
`t_max = 1/10`, prior time window `1/5`, overlap factor 1; the trial
offsets are exactly `[-1/10, 1/10]` (count 2). -/
theorem C7_time_scan_witness :
    (-(1/10) : ℚ) ≤ 1/10 ∧ (-(1/10) : ℚ) < 1/10 ∧ (0 : ℚ) < 1 ∧
    ((get_scan_times (some (-(1/10), 1/10)) (-(1/10)) (1/10) 1).length : ℤ)
      = ⌊((1/10 : ℚ) - -(1/10)) / (((1/10 : ℚ) - -(1/10)) / 1)⌋ + 1 ∧
    get_scan_times (some (-(1/10), 1/10)) (-(1/10)) (1/10) 1
      = [some (-(1/10)), some (1/10)] := by
  refine ⟨by norm_num, by norm_num, by norm_num, ?_, ?_⟩
  · exact (C7_time_scan (-(1/10)) (1/10) 1 (-(1/10)) (1/10)
      (by norm_num) (by norm_num) (by norm_num)).2.2.1
  · have h := (C7_time_scan (-(1/10)) (1/10) 1 (-(1/10)) (1/10)
      (by norm_num) (by norm_num) (by norm_num)).2.1
    rw [h]
    have hfl : ⌊((1/10 : ℚ) - -(1/10)) / (((1/10 : ℚ) - -(1/10)) / 1)⌋ = 1 := by
      norm_num
    rw [hfl]
    show (linspace (-(1/10)) (1/10) 2).map some = [some (-(1/10)), some (1/10)]
    have hls : linspace (-(1/10)) (1/10) 2 = [-(1/10), 1/10] := by
      simp only [linspace]
      norm_num [List.range_succ]
    rw [hls]
    rfl

/-- C8, counterexample.  `torch.squeeze` removes every size-1 dimension,
not only degenerate leading ones: for a two-row context, three samples per
row and parameter dimension 1, the flow wrapper returns shape `[2, 3]` —
a dimension was removed even though the context has more than one row and
`num_samples > 1`. -/
theorem C8_sample_shape_counterexample :
    flow_wrapper_sample_shape 2 3 1 = [2, 3] ∧
    flow_wrapper_sample_shape 2 3 1 ≠ [2, 3, 1] := by
  decide

/-- C8, amended.  The flow wrapper's sample call squeezes all size-1
dimensions of the `(context_rows, num_samples, param_dim)` output: for
multi-row context with `num_samples > 1` *and* parameter dimension > 1 no
dimension is removed, and for a single context row the degenerate leading
dimension is removed. -/
theorem C8_sample_shape (c n d : ℕ) (hc : 1 < c) (hn : 1 < n) (hd : 1 < d) :
    flow_wrapper_sample_shape c n d = [c, n, d] ∧
    flow_wrapper_sample_shape 1 n d = [n, d] := by
  have hc' : c ≠ 1 := by omega
  have hn' : n ≠ 1 := by omega
  have hd' : d ≠ 1 := by omega
  constructor
  · simp [flow_wrapper_sample_shape, flow_sample_shape, torch_squeeze, hc', hn', hd']
  · simp [flow_wrapper_sample_shape, flow_sample_shape, torch_squeeze, hn', hd']

/-- Witness for C8 at context rows 2, samples 3, parameter dimension 2. -/
theorem C8_sample_shape_witness :
    1 < 2 ∧ 1 < 3 ∧
    (flow_wrapper_sample_shape 2 3 2 = [2, 3, 2] ∧
      flow_wrapper_sample_shape 1 3 2 = [3, 2]) :=
  ⟨by decide, by decide, C8_sample_shape 2 3 2 (by decide) (by decide) (by decide)⟩

/-- C9.  Building a base transform with a mode tag other than
`rq-coupling` or `rq-autoregressive` raises `ValueError` (no silent
fallback to a default transform); both supported tags build a transform
without error. -/
theorem C9_mode_tag (i param_dim : ℕ) (tag : String) :
    ((tag ≠ "rq-coupling" ∧ tag ≠ "rq-autoregressive") →
      create_base_transform i param_dim tag = Except.error "ValueError") ∧
    (tag = "rq-coupling" ∨ tag = "rq-autoregressive" →
      ∃ t, create_base_transform i param_dim tag = Except.ok t) := by
  constructor
  · rintro ⟨hc, ha⟩
    simp [create_base_transform, hc, ha]
  · rintro (rfl | rfl)
    · exact ⟨_, rfl⟩
    · exact ⟨_, rfl⟩

/-- Witness for C9: the unsupported tag `linear` errors; `rq-coupling`
succeeds. -/
theorem C9_mode_tag_witness :
    (("linear" ≠ "rq-coupling") ∧ ("linear" ≠ "rq-autoregressive")) ∧
    create_base_transform 0 2 "linear" = Except.error "ValueError" ∧
    (∃ t, create_base_transform 0 2 "rq-coupling" = Except.ok t) := by
  refine ⟨⟨by decide, by decide⟩, ?_, ?_⟩
  · exact (C9_mode_tag 0 2 "linear").1 ⟨by decide, by decide⟩
  · exact (C9_mode_tag 0 2 "rq-coupling").2 (Or.inl rfl)

end DingoScan
